import Mathlib

/-!
Verification of the popcornmachine gameflow core: clock algebra
(src/web/src/lib/timeline.ts), quarter segment layout and per-minute lineup
reconstruction (src/web/src/components/GameflowTimeline.tsx).

Modelling conventions for the shallow embedding of the TypeScript source:
* JavaScript numbers are rationals; a possible NaN result is modelled as
  `Option ℚ` (or `Option ℤ` where every value is integral), with `none`
  standing for NaN.  The `js...` helpers below reproduce the NaN-propagation
  of the corresponding JS arithmetic and comparison operators.
* `parseInt(str, 10)` and `Number(str)` are modelled for the sign/digit
  fragment actually reachable from clock strings: leading whitespace is
  skipped (both ends trimmed for `Number`), an optional sign is read, then
  decimal digits.  Exotic JS forms (hex, exponents, fractional literals)
  are outside the data model of "M:SS" clock strings and map to `none`.
* `String.prototype.split(":")` is modelled by `splitCols` on the character
  list, matching the JS result (at least one part, empty parts kept).
* A JS `Set<string>` is an insertion-ordered collection without duplicates;
  it is modelled as a `List String` kept duplicate-free, where `add` appends
  (`insertOnce`), `delete` is `List.erase`, and iteration is list order.
-/

set_option maxRecDepth 100000

namespace Popcorn

/-! ## JS number primitives (NaN as `none`) -/

def jsAdd : Option ℚ → Option ℚ → Option ℚ
  | some a, some b => some (a + b)
  | _, _ => none

def jsSub : Option ℚ → Option ℚ → Option ℚ
  | some a, some b => some (a - b)
  | _, _ => none

def jsMul : Option ℚ → Option ℚ → Option ℚ
  | some a, some b => some (a * b)
  | _, _ => none

def jsDiv : Option ℚ → Option ℚ → Option ℚ
  | some a, some b => some (a / b)
  | _, _ => none

/-- `Math.max`: returns NaN when either argument is NaN. -/
def jsMax : Option ℚ → Option ℚ → Option ℚ
  | some a, some b => some (max a b)
  | _, _ => none

/-- JS `<` comparison: false whenever either side is NaN. -/
def jsLtB : Option ℚ → Option ℚ → Bool
  | some a, some b => decide (a < b)
  | _, _ => false

/-- JS `<=` with a definite right operand: false when the left side is NaN. -/
def jsLeVB : Option ℚ → ℚ → Bool
  | some a, b => decide (a ≤ b)
  | none, _ => false

/-- JS `<` with a definite left operand: false when the right side is NaN. -/
def jsVLtB : ℚ → Option ℚ → Bool
  | a, some b => decide (a < b)
  | _, none => false

/-! ## JS string-to-number parsing -/

/-- `str.split(":")` on the character list: JS always returns at least one
part and keeps empty parts. -/
def splitCols : List Char → List (List Char)
  | [] => [[]]
  | c :: rest =>
    if c = ':' then [] :: splitCols rest
    else
      match splitCols rest with
      | t :: ts => (c :: t) :: ts
      | [] => [[c]]

/-- Numeric value of a decimal digit character. -/
def digitVal (c : Char) : ℕ := c.toNat - 48

def digitsVal (ds : List Char) : ℕ := ds.foldl (fun n c => 10 * n + digitVal c) 0

/-- `parseInt(str, 10)` on a character list: skip leading whitespace, read an
optional sign, then the longest decimal-digit run; NaN (`none`) if that run
is empty.  Trailing garbage is ignored, as in JS. -/
def jsParseIntChars (cs : List Char) : Option ℤ :=
  let body := cs.dropWhile Char.isWhitespace
  match body with
  | '-' :: rest =>
    let ds := rest.takeWhile Char.isDigit
    if ds.isEmpty then none else some (-(digitsVal ds : ℤ))
  | '+' :: rest =>
    let ds := rest.takeWhile Char.isDigit
    if ds.isEmpty then none else some (digitsVal ds : ℤ)
  | rest =>
    let ds := rest.takeWhile Char.isDigit
    if ds.isEmpty then none else some (digitsVal ds : ℤ)

/-- `Number(str)` on a character list, for the integer-literal fragment:
whitespace is trimmed on both ends, the empty string is 0, otherwise an
optional sign followed exclusively by decimal digits; anything else is NaN. -/
def jsNumberChars (cs : List Char) : Option ℚ :=
  let t := ((cs.dropWhile Char.isWhitespace).reverse.dropWhile Char.isWhitespace).reverse
  match t with
  | [] => some 0
  | '-' :: rest =>
    if rest.isEmpty ∨ ¬ rest.all Char.isDigit then none
    else some (-(digitsVal rest : ℚ))
  | '+' :: rest =>
    if rest.isEmpty ∨ ¬ rest.all Char.isDigit then none
    else some (digitsVal rest : ℚ)
  | rest =>
    if rest.all Char.isDigit then some (digitsVal rest : ℚ) else none

/-! ## Clock algebra — src/web/src/lib/timeline.ts -/

/-- The `minutesStr` component of `clock.split(":")` in `clockToSeconds`. -/
def clockMinutesPart (clock : String) : List Char :=
  (splitCols clock.toList).headD []

/-- The `secondsStr` component: `undefined` (here `none`) when the clock
string has no ":" separator. -/
def clockSecondsPart (clock : String) : Option (List Char) :=
  (splitCols clock.toList).get? 1

/-- `parseInt(minutesStr, 10)`. -/
def parsedMinutesOf (clock : String) : Option ℤ :=
  jsParseIntChars (clockMinutesPart clock)

/-- `parseInt(secondsStr, 10)`; `parseInt(undefined)` is NaN. -/
def parsedSecondsOf (clock : String) : Option ℤ :=
  match clockSecondsPart clock with
  | some cs => jsParseIntChars cs
  | none => none

/-- `clockToSeconds` from timeline.ts.  All intermediate values are integers,
so the result is `Option ℤ`; `none` is the NaN outcome of malformed input. -/
def clockToSeconds (period : ℤ) (clock : String) : Option ℤ :=
  match parsedMinutesOf clock, parsedSecondsOf clock with
  | some minutes, some seconds =>
    let periodDuration : ℤ := if 4 < period then 300 else 720
    let elapsedInPeriod := periodDuration - (minutes * 60 + seconds)
    let startSeconds : ℤ :=
      if 4 < period then 2880 + (period - 5) * 300 else (period - 1) * 720
    some (startSeconds + elapsedInPeriod)
  | _, _ => none

/-- `secondsToPixelX` from timeline.ts. -/
def secondsToPixelX (seconds totalWidth totalSeconds : ℚ) : ℚ :=
  seconds / totalSeconds * totalWidth

structure QuarterBoundary where
  period : ℕ
  startSeconds : ℤ
  endSeconds : ℤ
deriving DecidableEq

/-- Start offset of a period, as computed inside `getQuarterBoundaries`. -/
def periodStartSeconds (p : ℕ) : ℤ :=
  if 4 < p then 2880 + ((p : ℤ) - 5) * 300 else ((p : ℤ) - 1) * 720

/-- `getQuarterBoundaries` from timeline.ts. -/
def getQuarterBoundaries (numPeriods : ℕ) : List QuarterBoundary :=
  (List.range numPeriods).map (fun i =>
    let p := i + 1
    let duration : ℤ := if 4 < p then 300 else 720
    ⟨p, periodStartSeconds p, periodStartSeconds p + duration⟩)

structure StintPixelRange where
  x : Option ℚ
  width : Option ℚ
deriving DecidableEq

/-- `getStintPixelRange` from timeline.ts; NaN clock values propagate. -/
def getStintPixelRange (inTime outTime : String) (period : ℤ)
    (totalWidth totalSeconds : ℚ) : StintPixelRange :=
  let inSeconds : Option ℚ := (clockToSeconds period inTime).map (fun v => (v : ℚ))
  let outSeconds : Option ℚ := (clockToSeconds period outTime).map (fun v => (v : ℚ))
  { x := inSeconds.map (fun s => secondsToPixelX s totalWidth totalSeconds)
    width := (jsSub outSeconds inSeconds).map
      (fun d => secondsToPixelX d totalWidth totalSeconds) }

/-- End coordinate `x + width` of a stint pixel range (NaN-propagating). -/
def pixelEnd (r : StintPixelRange) : Option ℚ := jsAdd r.x r.width

/-! ## Spec-side clock defs, for the refinement statement of C7.
These two follow the wording of the specification, not the code, and are
compared with `clockToSeconds` in the C7 theorem. -/

/-- Spec wording: period duration is 720 seconds for periods 1–4 and 300 for
periods 5 and above. -/
def specPeriodDuration (p : ℕ) : ℤ := if p ≤ 4 then 720 else 300

/-- Spec wording: sum of all prior periods' durations. -/
def specPriorSum : ℕ → ℤ
  | 0 => 0
  | 1 => 0
  | (n + 2) => specPriorSum (n + 1) + specPeriodDuration (n + 1)

/-! ## Gameflow timeline — src/web/src/components/GameflowTimeline.tsx -/

/-- A rotation stint of one player (`GameflowStint`); the per-stint stat
fields and event list are irrelevant to the layout and lineup logic and are
omitted. -/
structure GStint where
  playerId : String
  period : ℕ
  inTime : String
  outTime : String
deriving DecidableEq

/-- A `GameflowPlayer` restricted to the fields the lineup logic reads. -/
structure GPlayer where
  playerId : String
  stints : List GStint
deriving DecidableEq

/-- `QUARTER_SECONDS` / `OT_SECONDS` selection (`period > 4 ? OT : QUARTER`). -/
def periodDurationOf (period : ℕ) : ℚ := if 4 < period then 300 else 720

/-- `clockToElapsed` from GameflowTimeline.tsx:
`periodDuration - (m * 60 + s)` with `[m, s] = clock.split(":").map(Number)`;
a missing or non-numeric component gives NaN. -/
def clockToElapsed (clock : String) (periodDuration : ℚ) : Option ℚ :=
  let parts := splitCols clock.toList
  let m := jsNumberChars (parts.headD [])
  let s := match parts.get? 1 with
    | some cs => jsNumberChars cs
    | none => none
  match m, s with
  | some mv, some sv => some (periodDuration - (mv * 60 + sv))
  | _, _ => none

/-- A layout `Segment`: an on-court (`isIn = true`) run backed by a stint, or
an off-court gap. -/
structure Segment where
  isIn : Bool
  widthPx : Option ℚ
  stint : Option GStint
  stintIndex : Option ℕ
deriving DecidableEq

/-- The stints of one period paired with their original indices, sorted by
elapsed in-time (the JS `sort` is stable for a consistent comparator, so it
is modelled by a stable insertion sort on the elapsed key; a NaN key is
compared as 0, standing in for JS's unspecified NaN comparator behaviour). -/
def sortedPeriodStints (stints : List GStint) (period : ℕ) : List (ℕ × GStint) :=
  let dur := periodDurationOf period
  List.insertionSort
    (fun a b => (clockToElapsed a.2.inTime dur).getD 0 ≤ (clockToElapsed b.2.inTime dur).getD 0)
    ((stints.enum).filter (fun p => p.2.period = period))

/-- The segment-building loop of `buildQuarterSegments`, with the running
`cursor` made explicit.  `QUARTER_PX = 216`. -/
def segGo (dur : ℚ) : Option ℚ → List (ℕ × GStint) → List Segment
  | cursor, [] =>
    if jsLtB cursor (some dur) then
      [⟨false, jsMul (jsDiv (jsSub (some dur) cursor) (some dur)) (some 216), none, none⟩]
    else []
  | cursor, p :: rest =>
    let inElapsed := clockToElapsed p.2.inTime dur
    let outElapsed := clockToElapsed p.2.outTime dur
    let gap : List Segment :=
      if jsLtB cursor inElapsed then
        [⟨false, jsMul (jsDiv (jsSub inElapsed cursor) (some dur)) (some 216), none, none⟩]
      else []
    let stintFraction := jsDiv (jsMax (some 0) (jsSub outElapsed inElapsed)) (some dur)
    gap ++ ⟨true, jsMax (jsMul stintFraction (some 216)) (some 1), some p.2, some p.1⟩
      :: segGo dur outElapsed rest

/-- `buildQuarterSegments` from GameflowTimeline.tsx. -/
def buildQuarterSegments (stints : List GStint) (period : ℕ) : List Segment :=
  segGo (periodDurationOf period) (some 0) (sortedPeriodStints stints period)

/-! ### Ordered-set primitives for JS `Set<string>` -/

/-- `Set.add`: append if not already present. -/
def insertOnce (l : List String) (a : String) : List String :=
  if a ∈ l then l else l ++ [a]

/-! ### Lineup reconstruction (`buildLineupsByMinute`) -/

/-- One entry of the `stintRanges` pre-computation:
`[gameStartMin, gameEndMin, playerId]`.  The minute endpoints are NaN when a
clock fails to parse. -/
def stintRangesOf (p : GPlayer) : List (Option ℚ × Option ℚ × String) :=
  p.stints.map (fun st =>
    let periodDuration := periodDurationOf st.period
    let baseMins : ℚ :=
      if st.period ≤ 4 then ((st.period : ℚ) - 1) * 12 else 48 + ((st.period : ℚ) - 5) * 5
    (jsAdd (some baseMins) (jsDiv (clockToElapsed st.inTime periodDuration) (some 60)),
     jsAdd (some baseMins) (jsDiv (clockToElapsed st.outTime periodDuration) (some 60)),
     p.playerId))

def stintRanges (teamPlayers : List GPlayer) : List (Option ℚ × Option ℚ × String) :=
  teamPlayers.flatMap stintRangesOf

/-- `onCourtAt`: players with a stint range satisfying `s <= point && point < e`
(false on NaN endpoints), collected in range order without duplicates. -/
def onCourtAt (ranges : List (Option ℚ × Option ℚ × String)) (point : ℚ) : List String :=
  ranges.foldl
    (fun acc r => if jsLeVB r.1 point && jsVLtB point r.2.1 then insertOnce acc r.2.2 else acc)
    []

/-- Period-start carry-over: add players from `carried` to `stintLineup`
until the combined set reaches 5 (the loop breaks at size 5). -/
def addUpTo5 (stintLineup carried : List String) : List String :=
  carried.foldl (fun acc pid => if 5 ≤ acc.length then acc else insertOnce acc pid) stintLineup

/-- Mid-period: the new arrivals, `stintLineup` players absent from `carried`. -/
def midNewPlayers (stintLineup carried : List String) : List String :=
  stintLineup.filter (fun pid => pid ∉ carried)

/-- Mid-period: the `gone` list, carried players absent from `stintLineup`. -/
def midGone (stintLineup carried : List String) : List String :=
  carried.filter (fun pid => pid ∉ stintLineup)

/-- Mid-period: `gone.slice(0, newPlayers.size)`, the carried players deleted
for the new arrivals. -/
def midToRemove (stintLineup carried : List String) : List String :=
  (midGone stintLineup carried).take (midNewPlayers stintLineup carried).length

/-- The mid-period (non-boundary-minute) body of the lineup loop: drop one
`gone` carried player per new arrival, merge the remaining carried players
into `stintLineup`, then trim carried-only players while the merge exceeds 5.
Returns the recorded snapshot, which is also the next `carried`. -/
def midStep (stintLineup carried : List String) : List String :=
  let carried1 := (midToRemove stintLineup carried).foldl (fun c pid => c.erase pid) carried
  let merged := carried1.foldl insertOnce stintLineup
  if 5 < merged.length then
    let carriedOnly := merged.filter (fun pid => pid ∉ stintLineup)
    (carriedOnly.take (merged.length - 5)).foldl (fun m pid => m.erase pid) merged
  else merged

/-- One iteration of the `buildLineupsByMinute` loop: computes the snapshot
recorded for `minute` (equal to the updated `carried`). -/
def minuteStep (ranges : List (Option ℚ × Option ℚ × String)) (minute : ℕ)
    (carried : List String) : List String :=
  let stintLineup := onCourtAt ranges ((minute : ℚ) + 1 / 2)
  if minute % 12 = 0 then
    if minute / 12 + 1 = 1 then stintLineup
    else if stintLineup.length < 5 then addUpTo5 stintLineup carried
    else stintLineup
  else midStep stintLineup carried

/-- The `carried` set after processing minutes `0 .. m` (the snapshot stored
for minute `m`). -/
def carriedAfter (ranges : List (Option ℚ × Option ℚ × String)) : ℕ → List String
  | 0 => minuteStep ranges 0 []
  | m + 1 => minuteStep ranges (m + 1) (carriedAfter ranges m)

/-- `buildLineupsByMinute`: the minute-indexed lineup map, as the list of
snapshots for minutes `0 .. maxMinute - 1`. -/
def buildLineupsByMinute (teamPlayers : List GPlayer) (maxMinute : ℕ) :
    List (List String) :=
  (List.range maxMinute).map (carriedAfter (stintRanges teamPlayers))

/-! ### Measurement helpers used to state the layout claims -/

/-- Sum of segment widths (NaN-propagating). -/
def sumWidths (segs : List Segment) : Option ℚ :=
  segs.foldr (fun s acc => jsAdd s.widthPx acc) (some 0)

/-- Cumulative end position of each on-court segment, walking the segment
list and accumulating widths from a starting offset. -/
def endPositionsFrom (acc : Option ℚ) : List Segment → List (GStint × Option ℚ)
  | [] => []
  | s :: rest =>
    let acc1 := jsAdd acc s.widthPx
    match s.stint with
    | some st => (st, acc1) :: endPositionsFrom acc1 rest
    | none => endPositionsFrom acc1 rest

/-- Cumulative end position of every stint-backed segment of a segment list. -/
def stintEndPositions (segs : List Segment) : List (GStint × Option ℚ) :=
  endPositionsFrom (some 0) segs

/-- Well-formedness of a sorted period stint list relative to a running
cursor: both clocks parse, the stint starts at or after the cursor, lasts at
least `dur / 216` seconds (one pixel — no clamping), and the tail is
well-formed from its out-time; the final cursor stays within the period. -/
def segChainOk (dur : ℚ) : ℚ → List (ℕ × GStint) → Bool
  | c, [] => decide (c ≤ dur)
  | c, p :: rest =>
    let iOpt := clockToElapsed p.2.inTime dur
    let oOpt := clockToElapsed p.2.outTime dur
    iOpt.isSome && oOpt.isSome && decide (c ≤ iOpt.getD 0) &&
      decide (iOpt.getD 0 + dur / 216 ≤ oOpt.getD 0) && segChainOk dur (oOpt.getD 0) rest

/-- Strict separation between consecutive stints: each stint starts strictly
after the previous one ends (the no-gapless-substitution condition that makes
the segment sequence strictly alternate). -/
def strictSeps (dur : ℚ) : List (ℕ × GStint) → Bool
  | [] => true
  | [_] => true
  | p :: q :: rest =>
    decide ((clockToElapsed p.2.outTime dur).getD 0 < (clockToElapsed q.2.inTime dur).getD 0)
      && strictSeps dur (q :: rest)

/-- The in-elapsed of the first stint, or the period duration for an empty
list (used to phrase "the produced segment list starts with a gap"). -/
def headInOr (dur : ℚ) : List (ℕ × GStint) → ℚ
  | [] => dur
  | p :: _ => (clockToElapsed p.2.inTime dur).getD 0

/-! ### Concrete inputs used in counterexamples and witnesses -/

/-- Six players whose stints all cover period 1 — a pathological rotation
feed reporting six simultaneous players. -/
def sixOnCourt : List GPlayer :=
  [⟨"a", [⟨"a", 1, "12:00", "0:00"⟩]⟩, ⟨"b", [⟨"b", 1, "12:00", "0:00"⟩]⟩,
   ⟨"c", [⟨"c", 1, "12:00", "0:00"⟩]⟩, ⟨"d", [⟨"d", 1, "12:00", "0:00"⟩]⟩,
   ⟨"e", [⟨"e", 1, "12:00", "0:00"⟩]⟩, ⟨"f", [⟨"f", 1, "12:00", "0:00"⟩]⟩]

/-- One player on court from the opening tip, a second arriving at minute 1:
a new arrival at a non-boundary minute with no carried player to drop. -/
def lateArrival : List GPlayer :=
  [⟨"a", [⟨"a", 1, "12:00", "0:00"⟩]⟩, ⟨"b", [⟨"b", 1, "11:00", "0:00"⟩]⟩]

/-- The carry-over scenario: players a–d recorded for all of periods 1 and 2,
player e recorded only in period 1 (carried through period 2), player f
entering at period 2 minute 6 (game minute 18). -/
def carryScenario : List GPlayer :=
  [⟨"a", [⟨"a", 1, "12:00", "0:00"⟩, ⟨"a", 2, "12:00", "0:00"⟩]⟩,
   ⟨"b", [⟨"b", 1, "12:00", "0:00"⟩, ⟨"b", 2, "12:00", "0:00"⟩]⟩,
   ⟨"c", [⟨"c", 1, "12:00", "0:00"⟩, ⟨"c", 2, "12:00", "0:00"⟩]⟩,
   ⟨"d", [⟨"d", 1, "12:00", "0:00"⟩, ⟨"d", 2, "12:00", "0:00"⟩]⟩,
   ⟨"e", [⟨"e", 1, "12:00", "0:00"⟩]⟩,
   ⟨"f", [⟨"f", 2, "6:00", "0:00"⟩]⟩]

/-- A double-overtime input: players a and b play period 4 and OT1, player c
plays only OT2 (whose first minute is game minute 53). -/
def doubleOvertime : List GPlayer :=
  [⟨"a", [⟨"a", 4, "12:00", "0:00"⟩, ⟨"a", 5, "5:00", "0:00"⟩]⟩,
   ⟨"b", [⟨"b", 4, "12:00", "0:00"⟩, ⟨"b", 5, "5:00", "0:00"⟩]⟩,
   ⟨"c", [⟨"c", 6, "5:00", "0:00"⟩]⟩]

/-- A full-period stint ending at clock 0:00. -/
def alignedFull : List GStint := [⟨"pA", 1, "12:00", "0:00"⟩]

/-- A one-second stint ending at the same clock 0:00 (its width is clamped). -/
def alignedShort : List GStint := [⟨"pB", 1, "0:01", "0:00"⟩]

/-- A later stint also ending at clock 0:00, long enough not to be clamped. -/
def alignedLate : List GStint := [⟨"pB", 1, "4:00", "0:00"⟩]

/-- Two stints meeting end-to-start at 6:00, the second lasting one second. -/
def adjacentStints : List GStint :=
  [⟨"p", 1, "12:00", "6:00"⟩, ⟨"p", 1, "6:00", "5:59"⟩]

/-- Two well-separated stints covering [12:00, 6:00] and [4:00, 0:00]. -/
def gappedStints : List GStint :=
  [⟨"p", 1, "12:00", "6:00"⟩, ⟨"p", 1, "4:00", "0:00"⟩]

/-- A zero-duration stint. -/
def zeroDurationStint : GStint := ⟨"p", 1, "8:00", "8:00"⟩

/-- A stint starting one second into the period, putting a sub-pixel
off-court gap before it. -/
def shortGapStint : GStint := ⟨"p", 1, "11:59", "0:00"⟩

/-! ## Clock algebra lemmas and claims C7, C8, C9 -/

/-- The spec's sum of prior period durations agrees with the code's
closed-form period start offset. -/
theorem specPriorSum_eq_start (p : ℕ) (hp : 1 ≤ p) :
    specPriorSum p = periodStartSeconds p := by
  induction p with
  | zero => omega
  | succ n ih =>
    match n, ih with
    | 0, _ => simp [specPriorSum, periodStartSeconds]
    | (k + 1), ih =>
      have hk : specPriorSum (k + 1) = periodStartSeconds (k + 1) := ih (by omega)
      show specPriorSum (k + 1) + specPeriodDuration (k + 1) = periodStartSeconds (k + 2)
      rw [hk]
      unfold periodStartSeconds specPeriodDuration
      split_ifs <;> push_cast <;> omega

/-- C7: the elapsed-time mapping hits the spec's anchor values, and in
general `clockToSeconds period clock` is the sum of all prior periods'
durations plus the current period's duration minus the parsed clock value
(720-second periods 1–4, 300-second periods from 5 on). -/
theorem c7_elapsed_formula :
    (clockToSeconds 1 "12:00" = some 0 ∧ clockToSeconds 1 "0:00" = some 720 ∧
     clockToSeconds 2 "12:00" = some 720 ∧ clockToSeconds 5 "5:00" = some 2880 ∧
     clockToSeconds 5 "0:00" = some 3180) ∧
    ∀ (p : ℕ) (clock : String) (m s : ℤ), 1 ≤ p →
      parsedMinutesOf clock = some m → parsedSecondsOf clock = some s →
      clockToSeconds (p : ℤ) clock =
        some (specPriorSum p + specPeriodDuration p - (m * 60 + s)) := by
  refine ⟨by decide, ?_⟩
  intro p clock m s hp hm hs
  simp only [clockToSeconds, hm, hs]
  rw [specPriorSum_eq_start p hp]
  unfold periodStartSeconds specPeriodDuration
  simp only [Option.some.injEq]
  split_ifs <;> push_cast <;> omega

/-- Witness for C7: the general formula instantiated at period 5, clock
"5:00" (the start of the first overtime). -/
theorem c7_elapsed_formula_witness :
    clockToSeconds ((5 : ℕ) : ℤ) "5:00" =
      some (specPriorSum 5 + specPeriodDuration 5 - (5 * 60 + 0)) :=
  c7_elapsed_formula.2 5 "5:00" 5 0 (by decide) (by decide) (by decide)

/-- C8: the quarter boundary list starts at 0 and is contiguous — each
boundary's start equals the previous boundary's end, including across the
regulation-to-overtime transition. -/
theorem c8_boundaries_contiguous (numPeriods : ℕ) (h : 0 < numPeriods) :
    ((getQuarterBoundaries numPeriods)[0]?).map (fun b => b.startSeconds) = some 0 ∧
    ∀ i, i + 1 < numPeriods →
      ((getQuarterBoundaries numPeriods)[i + 1]?).map (fun b => b.startSeconds) =
        ((getQuarterBoundaries numPeriods)[i]?).map (fun b => b.endSeconds) := by
  constructor
  · simp [getQuarterBoundaries, List.getElem?_map, List.getElem?_range, h,
      periodStartSeconds]
  · intro i hi
    have h1 : i < numPeriods := by omega
    simp only [getQuarterBoundaries, List.getElem?_map, List.getElem?_range, hi, h1,
      Option.map_some']
    refine congrArg some ?_
    show periodStartSeconds (i + 1 + 1) =
      periodStartSeconds (i + 1) + (if 4 < i + 1 then (300 : ℤ) else 720)
    unfold periodStartSeconds
    split_ifs <;> push_cast <;> omega

/-- Witness for C8: a five-period (one overtime) game, checking the first
boundary and the regulation-to-overtime adjacency. -/
theorem c8_boundaries_contiguous_witness :
    ((getQuarterBoundaries 5)[0]?).map (fun b => b.startSeconds) = some 0 ∧
    ((getQuarterBoundaries 5)[4]?).map (fun b => b.startSeconds) =
      ((getQuarterBoundaries 5)[3]?).map (fun b => b.endSeconds) :=
  ⟨(c8_boundaries_contiguous 5 (by decide)).1,
   (c8_boundaries_contiguous 5 (by decide)).2 3 (by decide)⟩

/-- C9: a clock string with a non-numeric minutes or seconds component makes
`clockToSeconds` return the NaN result (`none`) for every period; the
function is total, so no exception is possible. -/
theorem c9_malformed_clock (period : ℤ) (clock : String)
    (h : parsedMinutesOf clock = none ∨ parsedSecondsOf clock = none) :
    clockToSeconds period clock = none := by
  unfold clockToSeconds
  rcases h with h | h
  · rw [h]
  · rw [h]; cases parsedMinutesOf clock <;> rfl

/-- Witness for C9: the malformed clock "xx:xx". -/
theorem c9_malformed_clock_witness : clockToSeconds 1 "xx:xx" = none :=
  c9_malformed_clock 1 "xx:xx" (Or.inl (by decide))

/-! ## Ordered-set lemmas for the lineup reconstruction -/

theorem mem_insertOnce {l : List String} {a b : String} :
    a ∈ insertOnce l b ↔ a ∈ l ∨ a = b := by
  by_cases hb : b ∈ l
  · simp only [insertOnce, if_pos hb]
    exact ⟨Or.inl, fun h => h.elim id (fun e => e ▸ hb)⟩
  · simp [insertOnce, if_neg hb]

theorem length_insertOnce_le (l : List String) (a : String) :
    (insertOnce l a).length ≤ l.length + 1 := by
  by_cases hb : a ∈ l <;> simp [insertOnce, hb]

theorem insertOnce_eq_append (l : List String) (a : String) :
    ∃ u, insertOnce l a = l ++ u := by
  by_cases hb : a ∈ l
  · exact ⟨[], by simp [insertOnce, hb]⟩
  · exact ⟨[a], by simp [insertOnce, hb]⟩

/-- Any fold whose step only appends extends its initial list. -/
theorem foldl_extend {α : Type} {g : List String → α → List String}
    (hg : ∀ acc x, ∃ u, g acc x = acc ++ u) :
    ∀ (c : List α) (s : List String), ∃ t, c.foldl g s = s ++ t := by
  intro c
  induction c with
  | nil => exact fun s => ⟨[], by simp⟩
  | cons x c ih =>
    intro s
    obtain ⟨u, hu⟩ := hg s x
    obtain ⟨t, ht⟩ := ih (g s x)
    exact ⟨u ++ t, by rw [List.foldl_cons, ht, hu, List.append_assoc]⟩

/-- A fold of `insertOnce` appends a duplicate-free tail of genuinely new
elements. -/
theorem foldl_insertOnce_char :
    ∀ (c s : List String), ∃ t, c.foldl insertOnce s = s ++ t ∧ t.Nodup ∧
      ∀ x ∈ t, x ∉ s := by
  intro c
  induction c with
  | nil => exact fun s => ⟨[], by simp, List.nodup_nil, by simp⟩
  | cons a c ih =>
    intro s
    by_cases ha : a ∈ s
    · have h1 : insertOnce s a = s := by simp [insertOnce, ha]
      rw [List.foldl_cons, h1]
      exact ih s
    · have h1 : insertOnce s a = s ++ [a] := by simp [insertOnce, ha]
      obtain ⟨t, ht, hnd, hni⟩ := ih (s ++ [a])
      refine ⟨a :: t, ?_, ?_, ?_⟩
      · rw [List.foldl_cons, h1, ht, List.append_assoc]; rfl
      · refine List.Nodup.cons ?_ hnd
        intro hat
        exact hni a hat (by simp)
      · intro x hx
        rcases List.mem_cons.mp hx with rfl | hx
        · exact ha
        · intro hxs
          exact hni x hx (by simp [hxs])

theorem mem_foldl_insertOnce :
    ∀ (c s : List String) (a : String), a ∈ c.foldl insertOnce s ↔ a ∈ s ∨ a ∈ c := by
  intro c
  induction c with
  | nil => simp
  | cons x c ih =>
    intro s a
    rw [List.foldl_cons, ih]
    rw [mem_insertOnce]
    simp only [List.mem_cons]
    tauto

theorem length_le_foldl_insertOnce (c s : List String) :
    s.length ≤ (c.foldl insertOnce s).length := by
  obtain ⟨t, ht, -, -⟩ := foldl_insertOnce_char c s
  simp [ht]

/-! ## `addUpTo5` lemmas -/

theorem addUpTo5_of_length_ge (s c : List String) (h : 5 ≤ s.length) :
    addUpTo5 s c = s := by
  induction c with
  | nil => rfl
  | cons x c ih =>
    show (x :: c).foldl _ s = s
    rw [List.foldl_cons, if_pos h]
    exact ih

theorem addUpTo5_eq_append (s c : List String) : ∃ t, addUpTo5 s c = s ++ t :=
  foldl_extend
    (fun acc x => by
      by_cases h : 5 ≤ acc.length
      · exact ⟨[], by simp [h]⟩
      · obtain ⟨u, hu⟩ := insertOnce_eq_append acc x
        exact ⟨u, by simp [h, hu]⟩)
    c s

theorem addUpTo5_take (s c : List String) : (addUpTo5 s c).take s.length = s := by
  obtain ⟨t, ht⟩ := addUpTo5_eq_append s c
  rw [ht, List.take_left]

theorem mem_addUpTo5 :
    ∀ (c s : List String) (a : String), a ∈ addUpTo5 s c → a ∈ s ∨ a ∈ c := by
  intro c
  induction c with
  | nil => exact fun s a h => Or.inl h
  | cons x c ih =>
    intro s a h
    rw [show addUpTo5 s (x :: c) =
      c.foldl (fun acc pid => if 5 ≤ acc.length then acc else insertOnce acc pid)
        (if 5 ≤ s.length then s else insertOnce s x) from List.foldl_cons ..] at h
    by_cases h5 : 5 ≤ s.length
    · rw [if_pos h5] at h
      rcases ih s a h with hs | hc
      · exact Or.inl hs
      · exact Or.inr (List.mem_cons_of_mem x hc)
    · rw [if_neg h5] at h
      rcases ih (insertOnce s x) a h with hs | hc
      · rcases mem_insertOnce.mp hs with hs | rfl
        · exact Or.inl hs
        · exact Or.inr (List.mem_cons_self ..)
      · exact Or.inr (List.mem_cons_of_mem x hc)

theorem length_addUpTo5 :
    ∀ (c s : List String), s.length ≤ 5 →
      (addUpTo5 s c).length = min 5 (c.foldl insertOnce s).length := by
  intro c
  induction c with
  | nil =>
    intro s h
    show s.length = min 5 s.length
    omega
  | cons x c ih =>
    intro s h
    by_cases h5 : 5 ≤ s.length
    · have hs5 : s.length = 5 := by omega
      rw [addUpTo5_of_length_ge s (x :: c) h5]
      have h1 : s.length ≤ ((x :: c).foldl insertOnce s).length := by
        rw [List.foldl_cons]
        calc s.length ≤ (insertOnce s x).length := by
              obtain ⟨u, hu⟩ := insertOnce_eq_append s x
              simp [hu]
          _ ≤ _ := length_le_foldl_insertOnce ..
      omega
    · have hx : (insertOnce s x).length ≤ 5 := by
        have := length_insertOnce_le s x
        omega
      have h1 : addUpTo5 s (x :: c) = addUpTo5 (insertOnce s x) c := by
        show (x :: c).foldl _ s = _
        rw [List.foldl_cons, if_neg h5]
        rfl
      rw [h1, ih (insertOnce s x) hx, List.foldl_cons]

theorem length_addUpTo5_le (s c : List String) :
    (addUpTo5 s c).length ≤ max 5 s.length := by
  by_cases h5 : 5 ≤ s.length
  · rw [addUpTo5_of_length_ge s c h5]
    omega
  · have := length_addUpTo5 c s (by omega)
    omega

/-! ## Erase-fold lemmas -/

theorem mem_eraseFold :
    ∀ (ds l : List String) (a : String),
      a ∈ ds.foldl (fun m pid => m.erase pid) l → a ∈ l := by
  intro ds
  induction ds with
  | nil => exact fun l a h => h
  | cons d ds ih =>
    intro l a h
    rw [List.foldl_cons] at h
    exact List.mem_of_mem_erase (ih (l.erase d) a h)

theorem eraseFold_take_drop :
    ∀ (t : List String) (k : ℕ) (s : List String), (∀ x ∈ t, x ∉ s) →
      (t.take k).foldl (fun m pid => m.erase pid) (s ++ t) = s ++ t.drop k := by
  intro t
  induction t with
  | nil => intro k s _; simp
  | cons x t ih =>
    intro k s hdisj
    cases k with
    | zero => simp
    | succ k =>
      rw [List.take_succ_cons, List.foldl_cons]
      have hx : x ∉ s := hdisj x (by simp)
      have h1 : (s ++ x :: t).erase x = s ++ t := by
        rw [List.erase_append_right _ hx, List.erase_cons_head]
      rw [h1, ih k s (fun y hy => hdisj y (by simp [hy])), List.drop_succ_cons]

/-! ## `midStep` lemmas -/

theorem midStep_char (stintLineup carried : List String) :
    ∃ t, (∀ x ∈ t, x ∉ stintLineup) ∧ t.Nodup ∧
      ((midStep stintLineup carried = stintLineup ++ t ∧
          stintLineup.length + t.length ≤ 5) ∨
       ∃ k, midStep stintLineup carried = stintLineup ++ t.drop k ∧
        5 < stintLineup.length + t.length ∧ k = stintLineup.length + t.length - 5) := by
  obtain ⟨t, ht, hnd, hni⟩ := foldl_insertOnce_char
    ((midToRemove stintLineup carried).foldl (fun c pid => c.erase pid) carried) stintLineup
  refine ⟨t, hni, hnd, ?_⟩
  simp only [midStep]
  rw [ht]
  by_cases h5 : 5 < (stintLineup ++ t).length
  · rw [if_pos h5]
    refine Or.inr ⟨(stintLineup ++ t).length - 5, ?_, by simpa using h5, by simp⟩
    have hfil : (stintLineup ++ t).filter (fun pid => pid ∉ stintLineup) = t := by
      rw [List.filter_append]
      have h1 : stintLineup.filter (fun pid => pid ∉ stintLineup) = [] := by
        simp only [List.filter_eq_nil_iff]
        intro a ha
        simp [ha]
      have h2 : t.filter (fun pid => pid ∉ stintLineup) = t := by
        rw [List.filter_eq_self]
        intro a ha
        simpa using hni a ha
      rw [h1, h2, List.nil_append]
    rw [hfil, eraseFold_take_drop t _ stintLineup hni]
  · rw [if_neg h5]
    exact Or.inl ⟨rfl, by simpa using h5⟩

theorem midStep_take (stintLineup carried : List String) :
    (midStep stintLineup carried).take stintLineup.length = stintLineup := by
  obtain ⟨t, _, _, hcase⟩ := midStep_char stintLineup carried
  rcases hcase with ⟨h, -⟩ | ⟨k, h, -, -⟩
  · rw [h, List.take_left]
  · rw [h, List.take_left]

theorem length_midStep_le (stintLineup carried : List String) :
    (midStep stintLineup carried).length ≤ max 5 stintLineup.length := by
  obtain ⟨t, _, _, hcase⟩ := midStep_char stintLineup carried
  rcases hcase with ⟨h, hle⟩ | ⟨k, h, h5, hk⟩
  · rw [h]
    simp only [List.length_append]
    omega
  · rw [h]
    simp only [List.length_append, List.length_drop]
    omega

theorem mem_midStep (stintLineup carried : List String) (a : String)
    (h : a ∈ midStep stintLineup carried) : a ∈ stintLineup ∨ a ∈ carried := by
  simp only [midStep] at h
  by_cases h5 : 5 < (((midToRemove stintLineup carried).foldl
      (fun c pid => c.erase pid) carried).foldl insertOnce stintLineup).length
  · rw [if_pos h5] at h
    have h1 := mem_eraseFold _ _ a h
    rcases (mem_foldl_insertOnce _ _ a).mp h1 with hs | hc
    · exact Or.inl hs
    · exact Or.inr (mem_eraseFold _ _ a hc)
  · rw [if_neg h5] at h
    rcases (mem_foldl_insertOnce _ _ a).mp h with hs | hc
    · exact Or.inl hs
    · exact Or.inr (mem_eraseFold _ _ a hc)

/-! ## `onCourtAt`, `minuteStep` and `buildLineupsByMinute` lemmas -/

theorem mem_onCourtAt_fold :
    ∀ (rs : List (Option ℚ × Option ℚ × String)) (acc : List String) (pt : ℚ)
      (a : String),
      a ∈ rs.foldl (fun acc r =>
        if jsLeVB r.1 pt && jsVLtB pt r.2.1 then insertOnce acc r.2.2 else acc) acc →
      a ∈ acc ∨ ∃ r ∈ rs, r.2.2 = a := by
  intro rs
  induction rs with
  | nil => exact fun acc pt a h => Or.inl h
  | cons r rs ih =>
    intro acc pt a h
    rw [List.foldl_cons] at h
    rcases ih _ pt a h with hacc | ⟨r', hr', he⟩
    · by_cases hc : (jsLeVB r.1 pt && jsVLtB pt r.2.1) = true
      · rw [if_pos hc] at hacc
        rcases mem_insertOnce.mp hacc with hacc | rfl
        · exact Or.inl hacc
        · exact Or.inr ⟨r, by simp, rfl⟩
      · rw [if_neg hc] at hacc
        exact Or.inl hacc
    · exact Or.inr ⟨r', List.mem_cons_of_mem r hr', he⟩

theorem mem_onCourtAt (ranges : List (Option ℚ × Option ℚ × String)) (pt : ℚ)
    (a : String) (h : a ∈ onCourtAt ranges pt) : ∃ r ∈ ranges, r.2.2 = a := by
  rcases mem_onCourtAt_fold ranges [] pt a h with h0 | h1
  · cases h0
  · exact h1

theorem mem_minuteStep (ranges : List (Option ℚ × Option ℚ × String)) (m : ℕ)
    (c : List String) (a : String) (h : a ∈ minuteStep ranges m c) :
    a ∈ onCourtAt ranges ((m : ℚ) + 1 / 2) ∨ a ∈ c := by
  simp only [minuteStep] at h
  split_ifs at h with h1 h2 h3
  · exact Or.inl h
  · exact mem_addUpTo5 c _ a h
  · exact Or.inl h
  · exact mem_midStep _ c a h

theorem length_minuteStep_le (ranges : List (Option ℚ × Option ℚ × String))
    (m : ℕ) (c : List String) :
    (minuteStep ranges m c).length ≤ max 5 (onCourtAt ranges ((m : ℚ) + 1 / 2)).length := by
  simp only [minuteStep]
  split_ifs with h1 h2 h3
  · exact le_max_right ..
  · exact length_addUpTo5_le ..
  · exact le_max_right ..
  · exact length_midStep_le ..

theorem buildLineups_getD (ps : List GPlayer) (maxM m : ℕ) (h : m < maxM) :
    (buildLineupsByMinute ps maxM).getD m [] = carriedAfter (stintRanges ps) m := by
  unfold buildLineupsByMinute
  rw [List.getD_eq_getElem?_getD, List.getElem?_map, List.getElem?_range h]
  rfl

theorem buildLineups_getD_of_ge (ps : List GPlayer) (maxM m : ℕ) (h : maxM ≤ m) :
    (buildLineupsByMinute ps maxM).getD m [] = [] := by
  unfold buildLineupsByMinute
  rw [List.getD_eq_getElem?_getD, List.getElem?_map]
  rw [List.getElem?_eq_none (by simpa using h)]
  rfl

theorem carriedAfter_eq_minuteStep (ranges : List (Option ℚ × Option ℚ × String))
    (m : ℕ) (hm : m ≠ 0) :
    carriedAfter ranges m = minuteStep ranges m (carriedAfter ranges (m - 1)) := by
  cases m with
  | zero => exact absurd rfl hm
  | succ k => rfl

/-! ## Claims C1–C4 -/

/-- C1 counterexample: with six players whose stints all cover minute 0's
midpoint, the minute-0 snapshot contains 6 player ids — the claimed
unconditional at-most-5 bound fails (the period-start branch copies
`stintLineup` without capping). -/
theorem c1_counterexample :
    ¬ (((buildLineupsByMinute sixOnCourt 48).getD 0 []).length ≤ 5) := by
  with_unfolding_all decide

/-- C1 (amended): every per-minute snapshot entry has at most
`max 5 k` ids, where `k` is the number of players whose stints cover that
minute's midpoint — the snapshot only exceeds 5 when more than 5 players
are simultaneously evidenced by the rotation feed itself, and the cap to 5
holds whenever the feed reports at most 5. -/
theorem c1_lineup_size_bound (teamPlayers : List GPlayer) (maxMinute minute : ℕ) :
    ((buildLineupsByMinute teamPlayers maxMinute).getD minute []).length ≤
      max 5 (onCourtAt (stintRanges teamPlayers) ((minute : ℚ) + 1 / 2)).length := by
  rcases Nat.lt_or_ge minute maxMinute with h | h
  · rw [buildLineups_getD teamPlayers maxMinute minute h]
    cases minute with
    | zero => exact length_minuteStep_le ..
    | succ k => exact length_minuteStep_le ..
  · rw [buildLineups_getD_of_ge teamPlayers maxMinute minute h]
    simp

/-- C2 counterexample: at non-boundary minute 1 of `lateArrival`, player b
is a new arrival (1 new player), but every carried player is still in
`stintLineup`, so zero — not exactly one — carried players are removed. -/
theorem c2_counterexample :
    (midNewPlayers (onCourtAt (stintRanges lateArrival) ((1 : ℚ) + 1 / 2))
        (carriedAfter (stintRanges lateArrival) 0)).length = 1 ∧
    (midToRemove (onCourtAt (stintRanges lateArrival) ((1 : ℚ) + 1 / 2))
        (carriedAfter (stintRanges lateArrival) 0)).length = 0 ∧
    (buildLineupsByMinute lateArrival 48).getD 1 [] = ["a", "b"] := by
  with_unfolding_all decide

/-- C2 (amended): at non-boundary minutes, one carried player absent from
`stintLineup` is removed per new arrival *while such players remain* — the
removal count is `min(#new arrivals, #carried absent from stintLineup)`;
the remaining carried players are merged after the stint-evidenced players
(the snapshot always starts with `stintLineup`), every snapshot member comes
from `stintLineup` or `carried`, and in the carry-over scenario (players a–d
recorded through period 2, player e carried from period 1, new player f at
period-2 minute 6 = game minute 18) exactly the carried player e is dropped
and the minute-18 snapshot contains exactly 5 ids. -/
theorem c2_substitution :
    (∀ s c : List String, (midToRemove s c).length =
        min (midNewPlayers s c).length (midGone s c).length) ∧
    (∀ s c : List String, (midStep s c).take s.length = s) ∧
    (∀ (s c : List String) (a : String), a ∈ midStep s c → a ∈ s ∨ a ∈ c) ∧
    ((buildLineupsByMinute carryScenario 24).getD 18 [] = ["a", "b", "c", "d", "f"] ∧
     "e" ∈ (buildLineupsByMinute carryScenario 24).getD 17 [] ∧
     "e" ∉ (buildLineupsByMinute carryScenario 24).getD 18 [] ∧
     ((buildLineupsByMinute carryScenario 24).getD 18 []).length = 5) := by
  refine ⟨?_, midStep_take, mem_midStep, by with_unfolding_all decide⟩
  intro s c
  unfold midToRemove
  rw [List.length_take]

/-- Witness for C2: the membership conjunct instantiated on a concrete
mid-period step. -/
theorem c2_substitution_witness : "a" ∈ ["a", "b"] ∨ "a" ∈ ["e"] :=
  c2_substitution.2.2.1 ["a", "b"] ["e"] "a" (by decide)

/-- C3 counterexample: minute 53 is the first minute of period 6 (the second
overtime) of `doubleOvertime`, with a 1-player `stintLineup` and a 2-player
prior carried set; the claim requires merging carried players until the
union reaches 5 or `carried` is exhausted (3 ids here), but the code only
detects period starts at multiples of 12 minutes, treats minute 53 as
mid-period, drops carried player a for new arrival c, and records 2 ids. -/
theorem c3_counterexample :
    (buildLineupsByMinute doubleOvertime 58).getD 53 [] = ["c", "b"] ∧
    carriedAfter (stintRanges doubleOvertime) 52 = ["a", "b"] ∧
    onCourtAt (stintRanges doubleOvertime) ((53 : ℚ) + 1 / 2) = ["c"] ∧
    ((buildLineupsByMinute doubleOvertime 58).getD 53 []).length ≠
      min 5 ((carriedAfter (stintRanges doubleOvertime) 52).foldl insertOnce
        (onCourtAt (stintRanges doubleOvertime) ((53 : ℚ) + 1 / 2))).length := by
  with_unfolding_all decide

/-- C3 (amended) — restricted to the period starts the code detects, the
game minutes that are multiples of 12 (the first minutes of periods 1–5;
the first minute of a second or later overtime falls through to the
mid-period branch, see the counterexample): at minute 0 the snapshot is a
copy of `stintLineup` even when it has fewer than 5 players; at later
detected period starts, if `stintLineup` has 5 or more players the snapshot
is a copy of it, and otherwise the snapshot extends `stintLineup` (as a
prefix) with players of the prior carried set, reaching
`min 5 (size of the union)` ids. -/
theorem c3_period_start (teamPlayers : List GPlayer) (maxMinute m : ℕ)
    (hm : m % 12 = 0) (hlt : m < maxMinute) :
    (m = 0 → (buildLineupsByMinute teamPlayers maxMinute).getD 0 [] =
      onCourtAt (stintRanges teamPlayers) ((0 : ℚ) + 1 / 2)) ∧
    (m ≠ 0 →
      (5 ≤ (onCourtAt (stintRanges teamPlayers) ((m : ℚ) + 1 / 2)).length →
        (buildLineupsByMinute teamPlayers maxMinute).getD m [] =
          onCourtAt (stintRanges teamPlayers) ((m : ℚ) + 1 / 2)) ∧
      ((onCourtAt (stintRanges teamPlayers) ((m : ℚ) + 1 / 2)).length < 5 →
        ((buildLineupsByMinute teamPlayers maxMinute).getD m []).take
            (onCourtAt (stintRanges teamPlayers) ((m : ℚ) + 1 / 2)).length =
          onCourtAt (stintRanges teamPlayers) ((m : ℚ) + 1 / 2) ∧
        (∀ pid ∈ (buildLineupsByMinute teamPlayers maxMinute).getD m [],
          pid ∈ onCourtAt (stintRanges teamPlayers) ((m : ℚ) + 1 / 2) ∨
          pid ∈ carriedAfter (stintRanges teamPlayers) (m - 1)) ∧
        ((buildLineupsByMinute teamPlayers maxMinute).getD m []).length =
          min 5 ((carriedAfter (stintRanges teamPlayers) (m - 1)).foldl insertOnce
            (onCourtAt (stintRanges teamPlayers) ((m : ℚ) + 1 / 2))).length)) := by
  constructor
  · intro h0
    subst h0
    rw [buildLineups_getD teamPlayers maxMinute 0 hlt]
    show minuteStep (stintRanges teamPlayers) 0 [] = _
    simp [minuteStep]
  · intro h0
    rw [buildLineups_getD teamPlayers maxMinute m hlt,
      carriedAfter_eq_minuteStep _ m h0]
    have h12 : ¬ m / 12 + 1 = 1 := by omega
    constructor
    · intro h5
      simp only [minuteStep, if_pos hm, if_neg h12]
      rw [if_neg (by omega)]
    · intro h5
      simp only [minuteStep, if_pos hm, if_neg h12, if_pos h5]
      exact ⟨addUpTo5_take .., fun pid hp => mem_addUpTo5 _ _ pid hp,
        length_addUpTo5 _ _ (by omega)⟩

/-- Witness for C3: the carry-over merge at the period-2 start (minute 12)
of `carryScenario`, where only 4 players are stint-evidenced. -/
theorem c3_period_start_witness :
    ((buildLineupsByMinute carryScenario 24).getD 12 []).length =
      min 5 ((carriedAfter (stintRanges carryScenario) 11).foldl insertOnce
        (onCourtAt (stintRanges carryScenario) (((12 : ℕ) : ℚ) + 1 / 2))).length :=
  (((c3_period_start carryScenario 24 12 (by decide) (by decide)).2
    (by decide)).2 (by with_unfolding_all decide)).2.2

theorem mem_stintRanges (ps : List GPlayer) (r : Option ℚ × Option ℚ × String)
    (h : r ∈ stintRanges ps) : ∃ p ∈ ps, r.2.2 = p.playerId ∧ p.stints ≠ [] := by
  unfold stintRanges at h
  rw [List.mem_flatMap] at h
  obtain ⟨p, hp, hr⟩ := h
  unfold stintRangesOf at hr
  rw [List.mem_map] at hr
  obtain ⟨st, hst, hfr⟩ := hr
  refine ⟨p, hp, ?_, List.ne_nil_of_mem hst⟩
  rw [← hfr]

theorem carriedAfter_allowed (ranges : List (Option ℚ × Option ℚ × String))
    (m : ℕ) (pid : String) (h : pid ∈ carriedAfter ranges m) :
    ∃ r ∈ ranges, r.2.2 = pid := by
  induction m with
  | zero =>
    rcases mem_minuteStep ranges 0 [] pid h with hs | hc
    · exact mem_onCourtAt ranges _ pid hs
    · cases hc
  | succ k ih =>
    rcases mem_minuteStep ranges (k + 1) (carriedAfter ranges k) pid h with hs | hc
    · exact mem_onCourtAt ranges _ pid hs
    · exact ih hc

/-- C4 (confirmed): lineup reconstruction never fabricates a player — every
player id appearing in any minute's snapshot belongs to a team player with
at least one stint record in the input. -/
theorem c4_no_fabrication (teamPlayers : List GPlayer) (maxMinute minute : ℕ)
    (pid : String)
    (h : pid ∈ (buildLineupsByMinute teamPlayers maxMinute).getD minute []) :
    ∃ p ∈ teamPlayers, p.playerId = pid ∧ p.stints ≠ [] := by
  rcases Nat.lt_or_ge minute maxMinute with hlt | hge
  · rw [buildLineups_getD teamPlayers maxMinute minute hlt] at h
    obtain ⟨r, hr, he⟩ := carriedAfter_allowed (stintRanges teamPlayers) minute pid h
    obtain ⟨p, hp, hid, hne⟩ := mem_stintRanges teamPlayers r hr
    exact ⟨p, hp, by rw [← hid, he], hne⟩
  · rw [buildLineups_getD_of_ge teamPlayers maxMinute minute hge] at h
    cases h

/-- Witness for C4: player a appears in the minute-1 snapshot of
`lateArrival` and indeed has a stint record. -/
theorem c4_no_fabrication_witness :
    ∃ p ∈ lateArrival, p.playerId = "a" ∧ p.stints ≠ [] :=
  c4_no_fabrication lateArrival 48 1 "a" (by with_unfolding_all decide)

/-! ## Segment layout lemmas -/

theorem segChainOk_nil {dur c : ℚ} (h : segChainOk dur c [] = true) : c ≤ dur := by
  simpa [segChainOk] using h

theorem segChainOk_cons {dur c : ℚ} {p : ℕ × GStint} {rest : List (ℕ × GStint)}
    (h : segChainOk dur c (p :: rest) = true) :
    ∃ i o, clockToElapsed p.2.inTime dur = some i ∧
      clockToElapsed p.2.outTime dur = some o ∧
      c ≤ i ∧ i + dur / 216 ≤ o ∧ segChainOk dur o rest = true := by
  simp only [segChainOk, Bool.and_eq_true, decide_eq_true_eq] at h
  obtain ⟨⟨⟨⟨h1, h2⟩, h3⟩, h4⟩, h5⟩ := h
  obtain ⟨i, hi⟩ := Option.isSome_iff_exists.mp h1
  obtain ⟨o, ho⟩ := Option.isSome_iff_exists.mp h2
  rw [hi] at h3 h4
  rw [ho] at h4 h5
  simp only [Option.getD_some] at h3 h4 h5
  exact ⟨i, o, hi, ho, h3, h4, h5⟩

/-- An unclamped on-court segment width: when the stint lasts at least
`dur / 216` seconds, `Math.max(fraction * 216, 1)` is the plain fraction. -/
theorem inWidth_unclamped {dur i o : ℚ} (hdur : 0 < dur) (h4 : i + dur / 216 ≤ o) :
    jsMax (jsMul (jsDiv (jsMax (some 0) (jsSub (some o) (some i))) (some dur))
      (some 216)) (some 1) = some ((o - i) / dur * 216) := by
  have h0 : (0 : ℚ) ≤ o - i := by
    have : 0 < dur / 216 := by positivity
    linarith
  have h1 : (1 : ℚ) ≤ (o - i) / dur * 216 := by
    rw [div_mul_eq_mul_div, le_div_iff₀ hdur]
    have h2 : dur / 216 ≤ o - i := by linarith
    have h3 : dur / 216 * 216 ≤ (o - i) * 216 :=
      mul_le_mul_of_nonneg_right h2 (by norm_num)
    have h4 : dur / 216 * 216 = dur := by field_simp
    linarith
  simp only [jsSub, jsMax, jsDiv, jsMul]
  rw [max_eq_right h0, max_eq_left h1]

theorem sumWidths_cons (s : Segment) (rest : List Segment) :
    sumWidths (s :: rest) = jsAdd s.widthPx (sumWidths rest) := rfl

/-- Width-sum of the segment run from cursor `c`: exactly the remaining
share of the 216-unit block. -/
theorem segGo_sum (dur : ℚ) (hdur : 0 < dur) :
    ∀ (l : List (ℕ × GStint)) (c : ℚ), segChainOk dur c l = true →
      sumWidths (segGo dur (some c) l) = some ((dur - c) * 216 / dur) := by
  intro l
  induction l with
  | nil =>
    intro c hc
    have hcle := segChainOk_nil hc
    simp only [segGo]
    by_cases hlt : c < dur
    · rw [if_pos (show jsLtB (some c) (some dur) = true by simp [jsLtB, hlt])]
      simp only [sumWidths_cons, jsMul, jsDiv, jsSub]
      show jsAdd (some ((dur - c) / dur * 216)) (sumWidths []) = _
      simp only [sumWidths, List.foldr_nil, jsAdd]
      refine congrArg some ?_
      ring
    · rw [if_neg (show ¬ jsLtB (some c) (some dur) = true by simp [jsLtB, hlt])]
      have hce : c = dur := le_antisymm hcle (not_lt.mp hlt)
      subst hce
      show some 0 = _
      refine congrArg some ?_
      rw [sub_self, zero_mul, zero_div]
  | cons p rest ih =>
    intro c hc
    obtain ⟨i, o, hi, ho, h3, h4, h5⟩ := segChainOk_cons hc
    have hih := ih o h5
    simp only [segGo, hi, ho]
    rw [inWidth_unclamped hdur h4]
    by_cases hgap : c < i
    · rw [if_pos (show jsLtB (some c) (some i) = true by simp [jsLtB, hgap])]
      simp only [List.cons_append, List.nil_append, sumWidths_cons, hih, jsSub, jsDiv,
        jsMul, jsAdd]
      refine congrArg some ?_
      ring
    · rw [if_neg (show ¬ jsLtB (some c) (some i) = true by simp [jsLtB, hgap])]
      simp only [List.nil_append, sumWidths_cons, hih, jsAdd]
      have hci : c = i := le_antisymm h3 (not_lt.mp hgap)
      subst hci
      refine congrArg some ?_
      ring

/-- Cumulative end positions of the segment run from cursor `c`: each
stint's on-court segment ends at its out-elapsed share of the block. -/
theorem segGo_ends (dur : ℚ) (hdur : 0 < dur) :
    ∀ (l : List (ℕ × GStint)) (c : ℚ), segChainOk dur c l = true →
      endPositionsFrom (some (c * 216 / dur)) (segGo dur (some c) l) =
        l.map (fun p => (p.2,
          some ((clockToElapsed p.2.outTime dur).getD 0 * 216 / dur))) := by
  intro l
  induction l with
  | nil =>
    intro c hc
    by_cases hlt : c < dur
    · simp [segGo, jsLtB, hlt, endPositionsFrom]
    · simp [segGo, jsLtB, hlt, endPositionsFrom]
  | cons p rest ih =>
    intro c hc
    obtain ⟨i, o, hi, ho, h3, h4, h5⟩ := segChainOk_cons hc
    have hih := ih o h5
    simp only [segGo, hi, ho]
    rw [inWidth_unclamped hdur h4]
    have hstep : jsAdd (some (i * 216 / dur)) (some ((o - i) / dur * 216)) =
        some (o * 216 / dur) := by
      simp only [jsAdd]
      refine congrArg some ?_
      ring
    by_cases hgap : c < i
    · rw [if_pos (show jsLtB (some c) (some i) = true by simp [jsLtB, hgap])]
      have hg : jsAdd (some (c * 216 / dur))
          (jsMul (jsDiv (jsSub (some i) (some c)) (some dur)) (some 216)) =
          some (i * 216 / dur) := by
        simp only [jsAdd, jsSub, jsDiv, jsMul]
        refine congrArg some ?_
        ring
      simp only [List.cons_append, List.nil_append, endPositionsFrom, hg, hstep,
        List.map_cons, ho, Option.getD_some]
      rw [hih]
    · rw [if_neg (show ¬ jsLtB (some c) (some i) = true by simp [jsLtB, hgap])]
      have hci : c = i := le_antisymm h3 (not_lt.mp hgap)
      subst hci
      simp only [List.nil_append, endPositionsFrom, hstep, List.map_cons, ho,
        Option.getD_some]
      rw [hih]

/-- Alternation of the segment run: under strict separation the produced
segments strictly alternate between off-court and on-court, and the run
starts with an off-court gap whenever the cursor is strictly before the
first stint (or before the period end when there is no stint). -/
theorem segGo_alternating (dur : ℚ) (hdur : 0 < dur) :
    ∀ (l : List (ℕ × GStint)) (c : ℚ), segChainOk dur c l = true →
      strictSeps dur l = true →
      List.Chain' (fun a b => a.isIn ≠ b.isIn) (segGo dur (some c) l) ∧
      (c < headInOr dur l →
        ∀ s0, (segGo dur (some c) l).head? = some s0 → s0.isIn = false) := by
  intro l
  induction l with
  | nil =>
    intro c hc _
    by_cases hlt : c < dur
    · simp [segGo, jsLtB, hlt]
    · simp [segGo, jsLtB, hlt]
  | cons p rest ih =>
    intro c hc hsep
    obtain ⟨i, o, hi, ho, h3, h4, h5⟩ := segChainOk_cons hc
    have hsepRest : strictSeps dur rest = true := by
      cases rest with
      | nil => rfl
      | cons q rest' =>
        simp only [strictSeps, Bool.and_eq_true] at hsep
        exact hsep.2
    have hih := ih o h5 hsepRest
    have hheadRest : ∀ s0, (segGo dur (some o) rest).head? = some s0 →
        s0.isIn = false := by
      cases rest with
      | nil =>
        intro s0 hs0
        simp only [segGo] at hs0
        by_cases hlt : o < dur
        · rw [if_pos (show jsLtB (some o) (some dur) = true by simp [jsLtB, hlt])] at hs0
          simp only [List.head?_cons, Option.some.injEq] at hs0
          rw [← hs0]
        · rw [if_neg (show ¬ jsLtB (some o) (some dur) = true by
            simp [jsLtB, hlt])] at hs0
          cases hs0
      | cons q rest' =>
        have hoq : o < headInOr dur (q :: rest') := by
          simp only [strictSeps, Bool.and_eq_true, decide_eq_true_eq] at hsep
          have := hsep.1
          rw [ho] at this
          simpa [headInOr] using this
        exact hih.2 hoq
    have hchainIn : List.Chain' (fun a b => a.isIn ≠ b.isIn)
        (Segment.mk true (some ((o - i) / dur * 216)) (some p.2) (some p.1) ::
          segGo dur (some o) rest) := by
      rw [List.chain'_cons']
      refine ⟨?_, hih.1⟩
      intro y hy
      have hfalse := hheadRest y hy
      simp [hfalse]
    constructor
    · simp only [segGo, hi, ho]
      rw [inWidth_unclamped hdur h4]
      by_cases hgap : c < i
      · rw [if_pos (show jsLtB (some c) (some i) = true by simp [jsLtB, hgap])]
        simp only [List.cons_append, List.nil_append]
        rw [List.chain'_cons']
        refine ⟨?_, hchainIn⟩
        intro y hy
        have hy2 : Segment.mk true (some ((o - i) / dur * 216)) (some p.2) (some p.1) = y :=
          Option.some.inj hy
        rw [← hy2]
        simp
      · rw [if_neg (show ¬ jsLtB (some c) (some i) = true by simp [jsLtB, hgap])]
        simp only [List.nil_append]
        exact hchainIn
    · intro hfirst s0 hs0
      have hci : c < i := by
        simpa [headInOr, hi] using hfirst
      simp only [segGo, hi, ho] at hs0
      rw [if_pos (show jsLtB (some c) (some i) = true by simp [jsLtB, hci])] at hs0
      simp only [List.cons_append, List.nil_append, List.head?_cons,
        Option.some.injEq] at hs0
      rw [← hs0]

/-- Every on-court segment's width is the clamped
`Math.max(max(0, out - in) / dur * 216, 1)` of its own stint. -/
theorem segGo_inWidth (dur : ℚ) :
    ∀ (l : List (ℕ × GStint)) (cur : Option ℚ) (seg : Segment),
      seg ∈ segGo dur cur l → seg.isIn = true →
      ∃ st, seg.stint = some st ∧
        seg.widthPx = jsMax (jsMul (jsDiv (jsMax (some 0)
          (jsSub (clockToElapsed st.outTime dur) (clockToElapsed st.inTime dur)))
          (some dur)) (some 216)) (some 1) := by
  intro l
  induction l with
  | nil =>
    intro cur seg hmem hin
    by_cases hlt : jsLtB cur (some dur) = true
    · simp only [segGo, hlt, if_true, List.mem_singleton] at hmem
      rw [hmem] at hin
      cases hin
    · simp only [segGo, hlt, if_false] at hmem
      cases hmem
  | cons p rest ih =>
    intro cur seg hmem hin
    simp only [segGo] at hmem
    rcases List.mem_append.mp hmem with hg | hrest
    · by_cases hlt : jsLtB cur (clockToElapsed p.2.inTime dur) = true
      · simp only [hlt, if_true, List.mem_singleton] at hg
        rw [hg] at hin
        cases hin
      · simp only [hlt, if_false] at hg
        cases hg
    · rcases List.mem_cons.mp hrest with hseg | htail
      · exact ⟨p.2, by rw [hseg], by rw [hseg]⟩
      · exact ih _ seg htail hin

/-! ## Claims C5, C6, C10 -/

/-- C5 counterexample: a full-period stint and a one-second stint both end
at period-1 clock 0:00, but the one-second stint's on-court width is clamped
from 0.3 up to 1 unit, so its cumulative end coordinate is 216.7 while the
full stint ends at 216 — a 0.7-unit mismatch, beyond the claimed 0.1
tolerance. -/
theorem c5_counterexample :
    stintEndPositions (buildQuarterSegments alignedFull 1) =
      [(⟨"pA", 1, "12:00", "0:00"⟩, some 216)] ∧
    stintEndPositions (buildQuarterSegments alignedShort 1) =
      [(⟨"pB", 1, "0:01", "0:00"⟩, some (2167 / 10))] ∧
    ¬ |(216 : ℚ) - 2167 / 10| ≤ 1 / 10 := by
  with_unfolding_all decide

/-- C5 (amended): end-coordinate alignment holds exactly (so in particular
within 0.1 of a unit) for `getStintPixelRange` — `x + width` is determined
by the out-clock alone — and for `buildQuarterSegments` on any sorted period
stint lists whose stints parse, stay in order, and last at least one pixel's
worth of time (`dur / 216` seconds, the no-clamping condition forced by the
counterexample). -/
theorem c5_aligned_ends :
    (∀ (period : ℤ) (inT1 outT1 inT2 outT2 : String) (W T : ℚ) (o i1 i2 : ℤ),
      0 < W → 0 < T →
      clockToSeconds period outT1 = some o → clockToSeconds period outT2 = some o →
      clockToSeconds period inT1 = some i1 → clockToSeconds period inT2 = some i2 →
      pixelEnd (getStintPixelRange inT1 outT1 period W T) = some ((o : ℚ) / T * W) ∧
      pixelEnd (getStintPixelRange inT2 outT2 period W T) = some ((o : ℚ) / T * W)) ∧
    (∀ (stintsA stintsB : List GStint) (period : ℕ) (pA pB : GStint × Option ℚ),
      segChainOk (periodDurationOf period) 0 (sortedPeriodStints stintsA period) = true →
      segChainOk (periodDurationOf period) 0 (sortedPeriodStints stintsB period) = true →
      pA ∈ stintEndPositions (buildQuarterSegments stintsA period) →
      pB ∈ stintEndPositions (buildQuarterSegments stintsB period) →
      clockToElapsed pA.1.outTime (periodDurationOf period) =
        clockToElapsed pB.1.outTime (periodDurationOf period) →
      pA.2 = pB.2 ∧ ∃ e, pA.2 = some e) := by
  constructor
  · intro period inT1 outT1 inT2 outT2 W T o i1 i2 hW hT ho1 ho2 hi1 hi2
    constructor
    · simp only [pixelEnd, getStintPixelRange, ho1, hi1, Option.map_some', jsSub, jsAdd,
        secondsToPixelX]
      refine congrArg some ?_
      push_cast
      ring
    · simp only [pixelEnd, getStintPixelRange, ho2, hi2, Option.map_some', jsSub, jsAdd,
        secondsToPixelX]
      refine congrArg some ?_
      push_cast
      ring
  · intro stintsA stintsB period pA pB hokA hokB hmemA hmemB hout
    have hdur : 0 < periodDurationOf period := by
      unfold periodDurationOf
      split <;> norm_num
    have hzero : (0 : ℚ) * 216 / periodDurationOf period = 0 := by
      rw [zero_mul, zero_div]
    have hendsA := segGo_ends (periodDurationOf period) hdur
      (sortedPeriodStints stintsA period) 0 hokA
    have hendsB := segGo_ends (periodDurationOf period) hdur
      (sortedPeriodStints stintsB period) 0 hokB
    rw [hzero] at hendsA hendsB
    have hA : pA ∈ (sortedPeriodStints stintsA period).map (fun p => (p.2,
        some ((clockToElapsed p.2.outTime (periodDurationOf period)).getD 0 * 216 /
          periodDurationOf period))) := by
      rw [← hendsA]
      exact hmemA
    have hB : pB ∈ (sortedPeriodStints stintsB period).map (fun p => (p.2,
        some ((clockToElapsed p.2.outTime (periodDurationOf period)).getD 0 * 216 /
          periodDurationOf period))) := by
      rw [← hendsB]
      exact hmemB
    obtain ⟨qA, hqA, heA⟩ := List.mem_map.mp hA
    obtain ⟨qB, hqB, heB⟩ := List.mem_map.mp hB
    have hA1 : pA.1 = qA.2 := by rw [← heA]
    have hA2 : pA.2 = some ((clockToElapsed qA.2.outTime (periodDurationOf period)).getD 0
        * 216 / periodDurationOf period) := by rw [← heA]
    have hB1 : pB.1 = qB.2 := by rw [← heB]
    have hB2 : pB.2 = some ((clockToElapsed qB.2.outTime (periodDurationOf period)).getD 0
        * 216 / periodDurationOf period) := by rw [← heB]
    rw [hA1, hB1] at hout
    refine ⟨?_, ⟨_, hA2⟩⟩
    rw [hA2, hB2, hout]

/-- Witness for C5: a full-period stint of one player and a 4:00-to-0:00
stint of another both end at period-1 clock 0:00 and get the same cumulative
end coordinate. -/
theorem c5_aligned_ends_witness :
    ((⟨"pA", 1, "12:00", "0:00"⟩ : GStint), some (216 : ℚ)).2 =
      ((⟨"pB", 1, "4:00", "0:00"⟩ : GStint), some (216 : ℚ)).2 ∧
    ∃ e, ((⟨"pA", 1, "12:00", "0:00"⟩ : GStint), some (216 : ℚ)).2 = some e :=
  c5_aligned_ends.2 alignedFull alignedLate 1
    ((⟨"pA", 1, "12:00", "0:00"⟩ : GStint), some (216 : ℚ))
    ((⟨"pB", 1, "4:00", "0:00"⟩ : GStint), some (216 : ℚ))
    (by with_unfolding_all decide) (by with_unfolding_all decide)
    (by with_unfolding_all decide) (by with_unfolding_all decide)
    (by with_unfolding_all decide)

/-- C6 counterexample: two stints meeting end-to-start at 6:00, the second
lasting one second: the produced segments are on-court, on-court (clamped to
1 unit), off-court — not alternating — and their widths sum to 216.7, not
the 216-unit period block. -/
theorem c6_counterexample :
    buildQuarterSegments adjacentStints 1 =
      [⟨true, some 108, some ⟨"p", 1, "12:00", "6:00"⟩, some 0⟩,
       ⟨true, some 1, some ⟨"p", 1, "6:00", "5:59"⟩, some 1⟩,
       ⟨false, some (1077 / 10), none, none⟩] ∧
    sumWidths (buildQuarterSegments adjacentStints 1) = some (2167 / 10) ∧
    ¬ List.Chain' (fun a b => a.isIn ≠ b.isIn)
      ([⟨true, some 108, some ⟨"p", 1, "12:00", "6:00"⟩, some 0⟩,
        ⟨true, some 1, some ⟨"p", 1, "6:00", "5:59"⟩, some 1⟩,
        ⟨false, some (1077 / 10), none, none⟩] : List Segment) ∧
    (2167 / 10 : ℚ) ≠ 216 := by
  refine ⟨by with_unfolding_all decide, by with_unfolding_all decide, ?_, by norm_num⟩
  intro hch
  rw [List.chain'_cons] at hch
  exact hch.1 rfl

/-- C6 (amended): for a player whose sorted period stints all parse, last at
least `dur / 216` seconds (one pixel — the no-clamp condition forced by the
counterexample) and are strictly separated (no end-to-start contact, which
breaks alternation), `buildQuarterSegments` yields a strictly alternating
off-court/on-court sequence whose widths sum exactly to the 216-unit period
block width, the final segment closing the block without a rounding gap. -/
theorem c6_segments (stints : List GStint) (period : ℕ)
    (hok : segChainOk (periodDurationOf period) 0 (sortedPeriodStints stints period) = true)
    (hsep : strictSeps (periodDurationOf period) (sortedPeriodStints stints period) = true) :
    List.Chain' (fun a b => a.isIn ≠ b.isIn) (buildQuarterSegments stints period) ∧
    sumWidths (buildQuarterSegments stints period) = some 216 := by
  have hdur : 0 < periodDurationOf period := by
    unfold periodDurationOf
    split <;> norm_num
  constructor
  · exact (segGo_alternating (periodDurationOf period) hdur
      (sortedPeriodStints stints period) 0 hok hsep).1
  · have hsum := segGo_sum (periodDurationOf period) hdur
      (sortedPeriodStints stints period) 0 hok
    show sumWidths (segGo (periodDurationOf period) (some 0)
      (sortedPeriodStints stints period)) = some 216
    rw [hsum]
    refine congrArg some ?_
    rw [sub_zero]
    field_simp

/-- Witness for C6: two well-separated stints fill the period with five
alternating segments summing to 216. -/
theorem c6_segments_witness :
    List.Chain' (fun a b => a.isIn ≠ b.isIn) (buildQuarterSegments gappedStints 1) ∧
    sumWidths (buildQuarterSegments gappedStints 1) = some 216 :=
  c6_segments gappedStints 1 (by with_unfolding_all decide)
    (by with_unfolding_all decide)

/-- C10 (confirmed): every on-court segment's width is at least 1 unit; a
stint whose duration fraction maps to less than 1 unit (including a
zero-duration stint) gets width exactly 1; off-court gap segments are not
clamped (a 1-second gap keeps its 0.3-unit width). -/
theorem c10_min_width :
    (∀ (stints : List GStint) (period : ℕ) (seg : Segment) (w : ℚ),
      seg ∈ buildQuarterSegments stints period → seg.isIn = true →
      seg.widthPx = some w → 1 ≤ w) ∧
    (∀ (stints : List GStint) (period : ℕ) (seg : Segment) (st : GStint) (f : ℚ),
      seg ∈ buildQuarterSegments stints period → seg.isIn = true →
      seg.stint = some st →
      jsMul (jsDiv (jsMax (some 0)
          (jsSub (clockToElapsed st.outTime (periodDurationOf period))
            (clockToElapsed st.inTime (periodDurationOf period))))
        (some (periodDurationOf period))) (some 216) = some f →
      f < 1 → seg.widthPx = some 1) ∧
    ((buildQuarterSegments [zeroDurationStint] 1).map (fun s => (s.isIn, s.widthPx)) =
      [(false, some 72), (true, some 1), (false, some 144)]) ∧
    ((buildQuarterSegments [shortGapStint] 1).head?.map (fun s => (s.isIn, s.widthPx)) =
      some (false, some (3 / 10))) := by
  refine ⟨?_, ?_, by with_unfolding_all decide, by with_unfolding_all decide⟩
  · intro stints period seg w hmem hin hw
    obtain ⟨st, hst, hwidth⟩ :=
      segGo_inWidth (periodDurationOf period) (sortedPeriodStints stints period)
        (some 0) seg hmem hin
    rw [hwidth] at hw
    cases hx : jsMul (jsDiv (jsMax (some 0)
        (jsSub (clockToElapsed st.outTime (periodDurationOf period))
          (clockToElapsed st.inTime (periodDurationOf period))))
        (some (periodDurationOf period))) (some 216) with
    | none => rw [hx] at hw; cases hw
    | some x =>
      rw [hx] at hw
      simp only [jsMax, Option.some.injEq] at hw
      rw [← hw]
      exact le_max_right x 1
  · intro stints period seg st f hmem hin hst hf hflt
    obtain ⟨st', hst', hwidth⟩ :=
      segGo_inWidth (periodDurationOf period) (sortedPeriodStints stints period)
        (some 0) seg hmem hin
    have hstq : st' = st := by
      rw [hst'] at hst
      exact Option.some.inj hst
    rw [hstq] at hwidth
    rw [hwidth, hf]
    simp only [jsMax]
    rw [max_eq_right (le_of_lt hflt)]

/-- Witness for C10: the clamped on-court segment of a zero-duration stint
has width 1 ≥ 1. -/
theorem c10_min_width_witness : (1 : ℚ) ≤ 1 :=
  c10_min_width.1 [zeroDurationStint] 1
    ⟨true, some 1, some zeroDurationStint, some 0⟩ 1
    (by with_unfolding_all decide) rfl rfl

end Popcorn
